import Mathlib

/-!
Shallow embedding of `core/internal/allow/allow.go` (package `allow` of
wenj91/graphjin): the allow-list store for pre-approved GraphQL operations.

Strings are modelled as their character lists where positions matter (the
inputs of interest are ASCII, where Go's byte offsets coincide with
character offsets).  The Go standard tokenizer `text/scanner` (an external
library, used with `SkipComments` turned off) is modelled over that
alphabet: identifiers, decimal number literals, quoted strings, line and
block comments, and single-rune punctuation tokens.
-/

namespace Allow

/-- Errors: the package distinguishes the sentinel `errUnknownFileType` by
identity; every other error is carried as its message. -/
inductive GoErr where
  | unknownFileType
  | msg (s : String)
deriving DecidableEq

/-- `Metadata.Order`, the anonymous struct inside `Metadata`. -/
structure MOrder where
  var : String
  values : List String
deriving DecidableEq

/-- `Metadata` from allow.go. -/
structure Metadata where
  Order : MOrder
deriving DecidableEq

/-- `Frag` from allow.go. -/
structure Frag where
  Name : String
  Value : String
deriving DecidableEq

/-- `Item` from allow.go.  `key` and `frags` are the unexported fields. -/
structure Item where
  Namespace : String
  Name : String
  Comment : String
  key : String
  Query : String
  Vars : String
  Metadata : Metadata
  frags : List Frag
deriving DecidableEq

def zeroMetadata : Metadata := ⟨⟨"", []⟩⟩

/-- The zero value of `Item` (what `var item Item` denotes in Go). -/
def zeroItem : Item := ⟨"", "", "", "", "", "", zeroMetadata, []⟩

/-- The `iota`-derived state constants of the segmenter. -/
def expComment : Nat := 1
def expVar : Nat := 2
def expQuery : Nat := 3
def expFrag : Nat := 4

def queryPath : String := "/queries"
def fragmentPath : String := "/fragments"

/-- `hasPfx p s` is `strings.HasPrefix(s, p)` on character lists. -/
def hasPfx : List Char → List Char → Bool
  | [], _ => true
  | _ :: _, [] => false
  | a :: as, b :: bs => a = b && hasPfx as bs

/-- The whitespace class skipped by the tokenizer (its default
`Whitespace` set: tab, newline, carriage return, space). -/
def isWs (c : Char) : Bool :=
  c = ' ' || c = '\t' || c = '\n' || c = '\r'

/-- Whitespace as trimmed by `strings.TrimSpace` (ASCII part of
`unicode.IsSpace` plus the two Latin-1 space characters). -/
def isSpaceGo (c : Char) : Bool :=
  c = ' ' || c = '\t' || c = '\n' || c = '\x0B' || c = '\x0C' || c = '\r' ||
  c = '\u0085' || c = '\u00A0'

def isIdStart (c : Char) : Bool := c.isAlpha || c = '_'
def isIdCont (c : Char) : Bool := c.isAlpha || c.isDigit || c = '_'

/-- Rest of a line comment: up to, not including, the newline. -/
def scanLine : List Char → List Char × List Char
  | [] => ([], [])
  | c :: rest =>
    if c = '\n' then ([], c :: rest)
    else
      let (t, r) := scanLine rest
      (c :: t, r)

/-- Rest of a block comment: up to and including the closing delimiter. -/
def scanBlock : List Char → List Char × List Char
  | [] => ([], [])
  | '*' :: '/' :: rest => ([ '*' , '/' ], rest)
  | c :: rest =>
    let (t, r) := scanBlock rest
    (c :: t, r)

/-- Rest of a quoted literal with backslash escapes, up to and including
the closing quote `q`. -/
def scanStr (q : Char) : List Char → List Char × List Char
  | [] => ([], [])
  | '\\' :: c :: rest =>
    let (t, r) := scanStr q rest
    ('\\' :: c :: t, r)
  | c :: rest =>
    if c = q then ([ c ], rest)
    else
      let (t, r) := scanStr q rest
      (c :: t, r)

/-- A decimal number literal (digits with an optional fraction). -/
def scanNum (cs : List Char) : List Char × List Char :=
  let d1 := cs.takeWhile Char.isDigit
  let r1 := cs.dropWhile Char.isDigit
  match r1 with
  | '.' :: r2 =>
    (d1 ++ '.' :: r2.takeWhile Char.isDigit, r2.dropWhile Char.isDigit)
  | _ => (d1, r1)

/-- One `Scan` step of the tokenizer: skip whitespace, then produce the
text of the next token and the remaining input; `none` at end of input. -/
def nextTok (cs0 : List Char) : Option (List Char × List Char) :=
  let cs := cs0.dropWhile isWs
  match cs with
  | [] => none
  | c :: rest =>
    if isIdStart c then
      some (c :: rest.takeWhile isIdCont, rest.dropWhile isIdCont)
    else if c.isDigit then
      some (scanNum (c :: rest))
    else if c = '"' || c = '\'' then
      let (t, r) := scanStr c rest
      some (c :: t, r)
    else if c = '/' then
      match rest with
      | '/' :: r2 =>
        let (t, r) := scanLine r2
        some ('/' :: '/' :: t, r)
      | '*' :: r2 =>
        let (t, r) := scanBlock r2
        some ('/' :: '*' :: t, r)
      | _ => some ([ c ], rest)
    else some ([ c ], rest)

/-- A scanned token: its text and the offset just after it (what `s.Pos()`
reports right after the corresponding `Scan`). -/
structure Tok where
  text : List Char
  endPos : Nat
deriving DecidableEq

/-- The token stream of an input, with end positions.  The fuel argument
(called with `length + 1`) only serves termination: every step consumes at
least one character, so the fuel is never exhausted on a real run. -/
def scanTokens : Nat → List Char → Nat → List Tok
  | 0, _, _ => []
  | fuel + 1, cs, off =>
    match nextTok cs with
    | none => []
    | some (t, rest) =>
      let endP := off + (cs.length - rest.length)
      ⟨t, endP⟩ :: scanTokens fuel rest endP

/-- `b[i:j]` on the character-list model. -/
def goSlice (cs : List Char) (i j : Nat) : String :=
  ⟨(cs.drop i).take (j - i)⟩

/-- `v[:strings.LastIndexByte(v, '}')+1]`: cut the list to end exactly at
its last closing brace; empty when there is none. -/
def cutBrace (v : List Char) : List Char :=
  (v.reverse.dropWhile (· ≠ '}')).reverse

/-- `strings.TrimSpace` on the character-list model. -/
def trimSpace (v : List Char) : List Char :=
  ((v.dropWhile isSpaceGo).reverse.dropWhile isSpaceGo).reverse

/-- The `val()` closure of `setValue`: cut at the last closing brace, then
trim surrounding whitespace. -/
def brVal (v : List Char) : List Char :=
  trimSpace (cutBrace v)

/-- Modelled from the spec: the query-state trigger fires on the operation
keywords `query`/`mutation`/`subscription` (the helper `isGraphQL` is not
among the provided sources; like the sibling triggers it is a prefix
test on the token text). -/
def isGraphQL (txt : List Char) : Bool :=
  hasPfx (("query").data) txt ||
  hasPfx (("mutation").data) txt ||
  hasPfx (("subscription").data) txt

/-- Helper for the Fragment Namer: the token right after the first
`fragment` token. -/
def fragNameTok : List Tok → List Char
  | t :: u :: rest =>
    if t.text = ("fragment").data then u.text else fragNameTok (u :: rest)
  | _ => []

/-- Modelled from the spec: the Fragment Namer "extracts the identifier
immediately following the `fragment` keyword" of a fragment body (the
helper `fragmentName` is not among the provided sources). -/
def fragmentName (v : List Char) : String :=
  ⟨fragNameTok (scanTokens (v.length + 1) v 0)⟩

/-- `setValue` from allow.go: assign the flushed span to the field owned
by the current state.  Every state, the comment state included, stores
`val()` — the span cut at its last closing brace and trimmed.  The error
component is the literal `nil` returned by the Go function. -/
def setValue (st : Nat) (v : String) (item : Item) : Item × Option GoErr :=
  let val : String := ⟨brVal v.data⟩
  if st = expComment then ({ item with Comment := val }, none)
  else if st = expVar then ({ item with Vars := val }, none)
  else if st = expQuery then ({ item with Query := val }, none)
  else if st = expFrag then
    ({ item with frags := item.frags ++ [⟨fragmentName val.data, val⟩] }, none)
  else (item, none)

/-- The loop state of `parseQuery`: current segmenter state, split point
`sp`, previous token end `op`, and the item under construction. -/
structure PQAcc where
  st : Nat
  sp : Nat
  op : Nat
  item : Item
deriving DecidableEq

/-- One iteration of the scan loop of `parseQuery` on token `t`. -/
def pqStep (cs : List Char) (acc : PQAcc) (t : Tok) : Except GoErr PQAcc :=
  if hasPfx ([ '/' , '*' ]) t.text then
    let r := setValue acc.st (goSlice cs acc.sp t.endPos) acc.item
    match r.2 with
    | some e => .error e
    | none => .ok ⟨acc.st, t.endPos, t.endPos, r.1⟩
  else if hasPfx (("variables").data) t.text then
    let r := setValue acc.st (goSlice cs acc.sp t.endPos) acc.item
    match r.2 with
    | some e => .error e
    | none => .ok ⟨expVar, t.endPos, t.endPos, r.1⟩
  else if isGraphQL t.text then
    let r := setValue acc.st (goSlice cs acc.sp t.endPos) acc.item
    match r.2 with
    | some e => .error e
    | none => .ok ⟨expQuery, acc.op, t.endPos, r.1⟩
  else if hasPfx (("fragment").data) t.text then
    let r := setValue acc.st (goSlice cs acc.sp t.endPos) acc.item
    match r.2 with
    | some e => .error e
    | none => .ok ⟨expFrag, acc.op, t.endPos, r.1⟩
  else .ok { acc with op := t.endPos }

/-- The scan loop of `parseQuery` over the token stream. -/
def pqLoop (cs : List Char) : List Tok → PQAcc → Except GoErr PQAcc
  | [], acc => .ok acc
  | t :: ts, acc =>
    match pqStep cs acc t with
    | .error e => .error e
    | .ok acc' => pqLoop cs ts acc'

/-- `strings.ToLower` on the ASCII alphabet used by this package. -/
def toLowerGo (s : String) : String := ⟨s.data.map Char.toLower⟩

/-- The final flush of `parseQuery`: performed only when the scan ends in
the query or fragment state. -/
def pqFinish (cs : List Char) (acc : PQAcc) : Item × Option GoErr :=
  if acc.st = expQuery || acc.st = expFrag then
    setValue acc.st (goSlice cs acc.sp cs.length) acc.item
  else (acc.item, none)

/-- `parseQuery` from allow.go: segment a raw document into comment,
variables, query and fragment regions, then set `key`. -/
def parseQuery (b : String) : Except GoErr Item :=
  let cs := b.data
  match pqLoop cs (scanTokens (cs.length + 1) cs 0) ⟨expComment, 0, 0, zeroItem⟩ with
  | .error e => .error e
  | .ok acc =>
    match pqFinish cs acc with
    | (_, some e) => .error e
    | (item, none) => .ok { item with key := toLowerGo item.Name }

/-! ## The filesystem model

`afero.Fs` is modelled as a list of directories, a list of (path, content)
files, and a set of paths on which writes fail (faults injected by the
abstract filesystem); reads fail exactly on missing paths. -/

structure FSys where
  dirs : List String
  files : List (String × String)
  failPaths : List String
deriving DecidableEq

def fsFind (fs : FSys) (p : String) : Option String :=
  (fs.files.find? (fun e => e.1 = p)).map (·.2)

/-- `afero.Exists`: true for an existing file or directory. -/
def fsExists (fs : FSys) (p : String) : Bool :=
  (fsFind fs p).isSome || fs.dirs.contains p

/-- `afero.ReadFile`. -/
def readFile (fs : FSys) (p : String) : Except GoErr String :=
  match fsFind fs p with
  | some c => .ok c
  | none => .error (.msg (("file does not exist: ") ++ p))

def upsert : List (String × String) → String → String → List (String × String)
  | [], p, c => [(p, c)]
  | (q, d) :: rest, p, c =>
    if q = p then (p, c) :: rest else (q, d) :: upsert rest p c

/-- `afero.WriteFile`: fails (leaving the filesystem unchanged) exactly on
the fault-injected paths, otherwise creates or overwrites the file. -/
def writeFile (fs : FSys) (p c : String) : FSys × Option GoErr :=
  if fs.failPaths.contains p then (fs, some (.msg (("write failed: ") ++ p)))
  else ({ fs with files := upsert fs.files p c }, none)

/-- The name of `p` as a direct child of directory `d`, when it is one. -/
def childName (d p : String) : Option String :=
  if hasPfx (d.data ++ [ '/' ]) p.data then
    let rest := p.data.drop (d.data.length + 1)
    if rest ≠ [] && !rest.contains '/' then some ⟨rest⟩ else none
  else none

def lexLt : List Char → List Char → Bool
  | [], [] => false
  | [], _ :: _ => true
  | _ :: _, [] => false
  | a :: as, b :: bs => a < b || (a = b && lexLt as bs)

def insSorted (e : String × Bool) : List (String × Bool) → List (String × Bool)
  | [] => [e]
  | x :: xs => if lexLt e.1.data x.1.data then e :: x :: xs else x :: insSorted e xs

/-- `afero.ReadDir`: the direct children of a directory, `(name, isDir)`,
sorted by name. -/
def readDir (fs : FSys) (d : String) : List (String × Bool) :=
  ((fs.files.map (fun e => e.1)).filterMap
      (fun p => (childName d p).map (fun n => (n, false))) ++
    fs.dirs.filterMap (fun p => (childName d p).map (fun n => (n, true)))).foldr
    insSorted []

/-- `filepath.Ext`: the suffix beginning at the final dot in the final
path element; empty when there is none. -/
def goExtAux : List Char → List Char → String
  | [], _ => ""
  | '.' :: _, acc => ⟨'.' :: acc⟩
  | '/' :: _, _ => ""
  | c :: rest, acc => goExtAux rest (c :: acc)

def goExt (p : String) : String := goExtAux p.data.reverse []

/-- `filepath.Base` for the well-formed paths used here. -/
def baseName (p : String) : String :=
  ⟨(p.data.reverse.takeWhile (· ≠ '/')).reverse⟩

/-- `strings.TrimSuffix`. -/
def trimSuffix (s suf : String) : String :=
  if hasPfx suf.data.reverse s.data.reverse then
    ⟨s.data.take (s.data.length - suf.data.length)⟩
  else s

/-- `filepath.Join` for the clean, slash-free components used by this
package (the path-cleaning step of the Go function is the identity on
them). -/
def goJoin (a b : String) : String := a ++ ("/") ++ b

/-- `splitName` from allow.go: split `namespace.name` on the last dot. -/
def splitName (v : String) : String × String :=
  match v.data.reverse.findIdx? (· = '.') with
  | none => ("", v)
  | some j =>
    let i := v.data.length - 1 - j
    if i < v.data.length - 1 then (⟨v.data.take i⟩, ⟨v.data.drop (i + 1)⟩)
    else ("", "")

/-! ## External collaborators

The YAML/JSON codecs and the full-grammar GraphQL parsers are external to
this package (the spec treats them as collaborators specified only at
their interface); they are modelled as abstract functions bundled in
`Ext`. -/

/-- What `graph.FastParse` returns: a header carrying the operation's
authoritative name. -/
structure FPH where
  Name : String
deriving DecidableEq

/-- The exported fields of `Item`.  The YAML codec unmarshals into a
zero-valued `Item` and can populate only these: the unexported `key` and
`frags` fields are untouched by it. -/
structure YamlFields where
  Namespace : String
  Name : String
  Comment : String
  Query : String
  Vars : String
  md : Metadata
deriving DecidableEq

/-- Modelled from the spec: the external collaborators — the YAML codec,
the JSON-clean + indented re-encode step for `Vars` (`jsn.Clear` and
`json.MarshalIndent`), the canonicalizing parser
(`schema.QueryDocument.Parse` followed by `WriteTo`), and the fast parser
(`graph.FastParse`), none of which are among the provided sources. -/
structure Ext where
  yamlDecode : String → Except GoErr YamlFields
  yamlEnc : Item → Except GoErr String
  varsClean : String → Except GoErr String
  qdParse : String → Except GoErr String
  fastParse : String → Except GoErr FPH

/-! ## The store -/

/-- The `List` struct of allow.go (named `AllowList` here to avoid the
clash with the list type): `hasSaveChan` models whether `saveChan` is
non-nil, i.e. whether the store was opened writable by `New` rather than
by `NewReadOnly`. -/
structure AllowList where
  hasSaveChan : Bool
  fs : FSys

/-- `List.Set`: validate synchronously, attach namespace, vars and
metadata to the draft, and hand it to the write queue.  The returned
`Item` is the record enqueued on `saveChan`; the Go function then returns
`nil` without waiting for the asynchronous persist. -/
def Set (al : AllowList) (vars : String) (query : String) (md : Metadata)
    (ns : String) : Except GoErr Item :=
  if al.hasSaveChan = false then .error (.msg ("allow list is read-only"))
  else if query = "" then .error (.msg ("empty query"))
  else
    match parseQuery query with
    | .error e => .error e
    | .ok item => .ok { item with Namespace := ns, Vars := vars, Metadata := md }

/-- Modelled from the spec: `parseGQLFile` (not among the provided
sources) reads the raw text of a `.gql`/`.graphql` file. -/
def parseGQLFile (fs : FSys) (p : String) : Except GoErr String :=
  readFile fs p

/-- `itemFromGQL`: namespace and name from the filename, query text from
the file, `key` the lowercased name. -/
def itemFromGQL (fs : FSys) (filePath : String) : Except GoErr Item :=
  let fn := baseName filePath
  let fn := trimSuffix fn (goExt fn)
  let (queryNS, queryName) := splitName fn
  if queryName = "" then .error (.msg (("invalid filename: ") ++ filePath))
  else
    match parseGQLFile fs filePath with
    | .error e => .error e
    | .ok query =>
      .ok { zeroItem with
              Namespace := queryNS, Name := queryName, Query := query,
              key := toLowerGo queryName }

/-- `itemFromYaml`: decode the file into a zero-valued `Item`; only the
exported fields are populated, so `key` stays `""` and `frags` stays
empty. -/
def itemFromYaml (ext : Ext) (fs : FSys) (filePath : String) :
    Except GoErr Item :=
  match readFile fs filePath with
  | .error e => .error e
  | .ok b =>
    match ext.yamlDecode b with
    | .error e => .error e
    | .ok y =>
      .ok { Namespace := y.Namespace, Name := y.Name, Comment := y.Comment,
            key := "", Query := y.Query, Vars := y.Vars, Metadata := y.md,
            frags := [] }

/-- `List.Get`: dispatch on the file extension. -/
def Get (ext : Ext) (fs : FSys) (filePath : String) : Except GoErr Item :=
  let e := goExt filePath
  if e = (".gql") || e = (".graphql") then itemFromGQL fs filePath
  else if e = (".yml") || e = (".yaml") then itemFromYaml ext fs filePath
  else .error .unknownFileType

/-- The per-entry loop of `List.Load`. -/
def loadLoop (ext : Ext) (fs : FSys) : List (String × Bool) →
    Except GoErr (List Item)
  | [] => .ok []
  | (n, isDir) :: rest =>
    if isDir then loadLoop ext fs rest
    else
      match Get ext fs (goJoin queryPath n) with
      | .error e =>
        if e = GoErr.unknownFileType then loadLoop ext fs rest else .error e
      | .ok item =>
        match loadLoop ext fs rest with
        | .error e => .error e
        | .ok items => .ok (item :: items)

/-- `List.Load`: empty result when `/queries` does not exist, otherwise
the loop over the directory's entries. -/
def Load (ext : Ext) (fs : FSys) : Except GoErr (List Item) :=
  if fs.dirs.contains queryPath = false then .ok []
  else loadLoop ext fs (readDir fs queryPath)

/-- `List.GetByName`: probe the four accepted extensions in order. -/
def GetByName (ext : Ext) (fs : FSys) (filePath : String) :
    Except GoErr Item :=
  let fpath := goJoin queryPath filePath
  if fsExists fs (fpath ++ (".gql")) then Get ext fs (fpath ++ (".gql"))
  else if fsExists fs (fpath ++ (".graphql")) then
    Get ext fs (fpath ++ (".graphql"))
  else if fsExists fs (fpath ++ (".yml")) then Get ext fs (fpath ++ (".yml"))
  else if fsExists fs (fpath ++ (".yaml")) then Get ext fs (fpath ++ (".yaml"))
  else .ok zeroItem

/-- The main record's file name in `saveItem`. -/
def mainFn (item : Item) : String :=
  if item.Namespace ≠ "" then
    item.Namespace ++ (".") ++ item.Name ++ (".yaml")
  else item.Name ++ (".yaml")

/-- A fragment's file name in `saveItem`. -/
def fragFn (ns name : String) : String :=
  if ns ≠ "" then ns ++ (".") ++ name else name

/-- The fragment-writing loop of `saveItem`: each fragment is written as
its own file; the first failure aborts the loop, leaving earlier writes in
place. -/
def fragLoop (ns : String) (fs : FSys) : List Frag → FSys × Option GoErr
  | [] => (fs, none)
  | f :: rest =>
    match writeFile fs (goJoin fragmentPath (fragFn ns f.Name)) f.Value with
    | (fs', some e) => (fs', some e)
    | (fs', none) => fragLoop ns fs' rest

/-- `List.saveItem`: clean and re-encode `Vars` when non-empty, encode the
record, write the main file under `/queries`, then write each fragment
under `/fragments`.  (The `ow` parameter is unused in the source as
well.) -/
def saveItem (ext : Ext) (fs : FSys) (item : Item) (_ow : Bool) :
    FSys × Option GoErr :=
  let cleaned : Except GoErr Item :=
    if item.Vars ≠ "" then
      match ext.varsClean item.Vars with
      | .error e => .error e
      | .ok v => .ok { item with Vars := v }
    else .ok item
  match cleaned with
  | .error e => (fs, some e)
  | .ok item =>
    match ext.yamlEnc item with
    | .error e => (fs, some e)
    | .ok b =>
      match writeFile fs (goJoin queryPath (mainFn item)) b with
      | (fs', some e) => (fs', some e)
      | (fs', none) => fragLoop item.Namespace fs' item.frags

/-- The canonicalization step of `List.save`: overwrite `Name` and `key`
with the authoritative name from the fast parser. -/
def canonItem (h : FPH) (item : Item) : Item :=
  { item with Name := h.Name, key := toLowerGo h.Name }

/-- `List.save`, the body of the background writer: canonicalize the
query, require a non-empty operation name, then persist. -/
def save (ext : Ext) (fs : FSys) (item : Item) : FSys × Option GoErr :=
  match ext.qdParse item.Query with
  | .error e => (fs, some e)
  | .ok query =>
    match ext.fastParse query with
    | .error e => (fs, some e)
    | .ok h =>
      if h.Name = "" then
        (fs, some (.msg
          ("no query name defined. only named queries are saved to the allow list")))
      else saveItem ext fs (canonItem h item) true

/-- `List.FragmentFetcher`: a namespace-bound lookup of fragment files. -/
def FragmentFetcher (fs : FSys) (ns : String) (name : String) :
    Except GoErr String :=
  readFile fs (goJoin fragmentPath (fragFn ns name))

/-- Boolean error test on `Except`. -/
def isErr : Except GoErr α → Bool
  | .error _ => true
  | .ok _ => false

instance instDecEqExcept (α β : Type) [DecidableEq α] [DecidableEq β] :
    DecidableEq (Except α β) := fun a b =>
  match a, b with
  | .error x, .error y =>
    if h : x = y then .isTrue (by rw [h]) else .isFalse (by simp [h])
  | .ok x, .ok y =>
    if h : x = y then .isTrue (by rw [h]) else .isFalse (by simp [h])
  | .error _, .ok _ => .isFalse (by simp)
  | .ok _, .error _ => .isFalse (by simp)

/-! ## Concrete fixtures used by witnesses and counterexamples -/

/-- The empty filesystem. -/
def fsEmpty : FSys := ⟨[], [], []⟩

/-- A trivial instance of the external collaborators: the canonicalizing
parse is the identity and the fast parser reports an anonymous
operation. -/
def extAnon : Ext :=
  ⟨fun _ => .ok ⟨"", "", "", "", "", zeroMetadata⟩,
    fun _ => .ok "",
    fun v => .ok v,
    fun s => .ok s,
    fun _ => .ok ⟨""⟩⟩

/-- An instance of the external collaborators whose YAML codec decodes a
record named `GetUser` with query body `q` (as the real codec does on such
a document). -/
def extGU : Ext :=
  { extAnon with yamlDecode := fun _ => .ok ⟨"", "GetUser", "", "q", "", zeroMetadata⟩ }

/-- A filesystem holding a single structured record file. -/
def fsYaml : FSys := ⟨[], [(("/queries/billing.GetInvoice.yaml"), ("doc"))], []⟩

/-- A filesystem for exercising `Load`: a subdirectory, a well-formed raw
query file, a file with an unrecognized extension, and a `.gql` file whose
name is empty after stripping the extension. -/
def fsLoad : FSys :=
  ⟨[("/queries"), ("/queries/sub")],
    [(("/queries/a.gql"), ("query {x}")), (("/queries/readme.txt"), ("hi")),
      (("/queries/.gql"), ("z"))],
    []⟩

/-- A record with three fragments, for exercising the persist step. -/
def itemFr : Item :=
  { zeroItem with
    Name := ("Q")
    frags := [⟨("A"), ("va")⟩, ⟨("B"), ("vb")⟩, ⟨("C"), ("vc")⟩] }

/-- A filesystem on which writing the fragment file `/fragments/B`
fails. -/
def fsFailB : FSys := ⟨[], [], [("/fragments/B")]⟩

/-- The filesystem after `saveItem` has written the main record file. -/
def mainWritten (fs : FSys) (item : Item) (enc : String) : FSys :=
  { fs with files := upsert fs.files (goJoin queryPath (mainFn item)) enc }

/-! ## Lemmas about the segmenter -/

theorem setValue_snd (st : Nat) (v : String) (item : Item) :
    (setValue st v item).2 = none := by
  unfold setValue
  split_ifs <;> rfl

theorem setValue_Name (st : Nat) (v : String) (item : Item) :
    ((setValue st v item).1).Name = item.Name := by
  unfold setValue
  split_ifs <;> rfl

theorem pqStep_ok (cs : List Char) (acc : PQAcc) (t : Tok) :
    ∃ acc', pqStep cs acc t = .ok acc' ∧ acc'.item.Name = acc.item.Name := by
  unfold pqStep
  split_ifs <;>
    first
      | exact ⟨_, rfl, rfl⟩
      | (simp only [setValue_snd]; exact ⟨_, rfl, setValue_Name _ _ _⟩)

theorem pqLoop_ok (cs : List Char) :
    ∀ (toks : List Tok) (acc : PQAcc),
      ∃ acc', pqLoop cs toks acc = .ok acc' ∧
        acc'.item.Name = acc.item.Name
  | [], acc => ⟨acc, rfl, rfl⟩
  | t :: ts, acc => by
    obtain ⟨a1, h1, hn1⟩ := pqStep_ok cs acc t
    obtain ⟨a2, h2, hn2⟩ := pqLoop_ok cs ts a1
    exact ⟨a2, by simp only [pqLoop, h1, h2], by rw [hn2, hn1]⟩

theorem pqFinish_snd (cs : List Char) (acc : PQAcc) :
    (pqFinish cs acc).2 = none := by
  unfold pqFinish
  split_ifs
  · exact setValue_snd _ _ _
  · rfl

theorem pqFinish_Name (cs : List Char) (acc : PQAcc) :
    ((pqFinish cs acc).1).Name = acc.item.Name := by
  unfold pqFinish
  split_ifs
  · exact setValue_Name _ _ _
  · rfl

theorem parseQuery_ok (b : String) :
    ∃ item, parseQuery b = .ok item ∧ item.Name = "" ∧ item.key = "" := by
  obtain ⟨acc, h, hn⟩ := pqLoop_ok b.data
    (scanTokens (b.data.length + 1) b.data 0) ⟨expComment, 0, 0, zeroItem⟩
  have hzero : acc.item.Name = "" := hn
  rcases hp : pqFinish b.data acc with ⟨item2, e2⟩
  have he : e2 = none := by
    have h3 := pqFinish_snd b.data acc
    rw [hp] at h3
    exact h3
  have hname : item2.Name = "" := by
    have h4 := pqFinish_Name b.data acc
    rw [hp] at h4
    exact h4.trans hzero
  subst he
  refine ⟨{ item2 with key := toLowerGo item2.Name }, ?_, hname, ?_⟩
  · simp only [parseQuery, h, hp]
  · show toLowerGo item2.Name = ""
    rw [hname]
    rfl

end Allow

/-- C10: for every input string, the record returned by `parseQuery` has
an empty `Name` (no transition of the segmenter assigns `Name`; fragment
names live only on fragment entries), and consequently its `key` is the
empty string. -/
theorem Allow.C10_parseQuery_name_empty (b : String) (item : Allow.Item)
    (h : Allow.parseQuery b = .ok item) :
    item.Name = "" ∧ item.key = "" := by
  obtain ⟨i, hi, hn, hk⟩ := Allow.parseQuery_ok b
  rw [h] at hi
  cases hi
  exact ⟨hn, hk⟩

/-- Witness for C10 at the concrete input `"x"`. -/
theorem Allow.C10_witness :
    Allow.zeroItem.Name = "" ∧ Allow.zeroItem.key = "" :=
  Allow.C10_parseQuery_name_empty ("x") Allow.zeroItem (by decide)

/-- C8: segmenting the example document yields exactly the claimed query
body and the single claimed fragment. -/
theorem Allow.C8_example_segmentation :
    Allow.parseQuery
        ("query GetUser { user(id: $id) { name } } fragment UserFields on User { name }")
      = Except.ok
          ⟨"", "", "", "",
            ("query GetUser { user(id: $id) { name } }"), "",
            Allow.zeroMetadata,
            [⟨("UserFields"), ("fragment UserFields on User { name }")⟩]⟩ := by
  decide

/-- C7 counterexample: on the degenerate input `"query Foo ("`, whose
query-state flush span contains no closing brace, `parseQuery` returns a
nil error and a record whose `Query` field is empty — not a malformed-
input error. -/
theorem Allow.C7_counterexample :
    Allow.parseQuery ("query Foo (") = Except.ok Allow.zeroItem ∧
      Allow.zeroItem.Query = "" := by
  decide

/-- C7 amended: no flush step can fail: `setValue` always returns a nil
error (a span with no closing brace silently yields an empty field), and
consequently `parseQuery` succeeds on every input. -/
theorem Allow.C7_flush_never_fails (st : Nat) (v : String) (item : Allow.Item)
    (b : String) :
    (Allow.setValue st v item).2 = none ∧
      ∃ i, Allow.parseQuery b = Except.ok i := by
  refine ⟨Allow.setValue_snd st v item, ?_⟩
  obtain ⟨i, hi, -, -⟩ := Allow.parseQuery_ok b
  exact ⟨i, hi⟩

/-- C6 counterexample: a flush in the comment state does not keep the
captured span verbatim — the span `"/* a */"` (already
whitespace-trimmed, so the claim says it would be stored unchanged) is cut
at its (absent) last closing brace and stored as the empty string. -/
theorem Allow.C6_counterexample :
    (Allow.setValue Allow.expComment ("/* a */") Allow.zeroItem).1.Comment
        = "" ∧
      String.mk (Allow.trimSpace (("/* a */").data)) = ("/* a */") ∧
      ("" : String) ≠ ("/* a */") := by
  decide

/-- C6 amended: every flush, in all four states — the comment state
included — stores the captured span cut to end exactly at its last
closing brace and then stripped of surrounding whitespace (`brVal`); for
the fragment state a fragment entry with that value and its derived name
is appended. -/
theorem Allow.C6_flush_rule (v : String) (item : Allow.Item) :
    (Allow.setValue Allow.expComment v item).1.Comment
        = String.mk (Allow.brVal v.data) ∧
      (Allow.setValue Allow.expVar v item).1.Vars
        = String.mk (Allow.brVal v.data) ∧
      (Allow.setValue Allow.expQuery v item).1.Query
        = String.mk (Allow.brVal v.data) ∧
      (Allow.setValue Allow.expFrag v item).1.frags
        = item.frags ++
            [⟨Allow.fragmentName (Allow.brVal v.data),
              String.mk (Allow.brVal v.data)⟩] := by
  refine ⟨?_, ?_, ?_, ?_⟩ <;>
    norm_num [Allow.setValue, Allow.expComment, Allow.expVar,
      Allow.expQuery, Allow.expFrag]

/-- C1: `Set` fails exactly when the store is read-only, the query text is
empty, or segmentation fails; on success the draft record — with the
namespace, metadata and vars attached — is the value handed to the write
queue, and the result does not depend on the filesystem (the persist
outcome is neither awaited nor reported). -/
theorem Allow.C1_set_contract (b : Bool) (fs fs' : Allow.FSys)
    (vars query : String) (md : Allow.Metadata) (ns : String) :
    (Allow.isErr (Allow.Set ⟨b, fs⟩ vars query md ns) = true ↔
        (b = false ∨ query = "" ∨
          Allow.isErr (Allow.parseQuery query) = true)) ∧
      (∀ item, b = true → query ≠ "" → Allow.parseQuery query = .ok item →
        Allow.Set ⟨b, fs⟩ vars query md ns =
          .ok { item with Namespace := ns, Vars := vars, Metadata := md }) ∧
      Allow.Set ⟨b, fs⟩ vars query md ns = Allow.Set ⟨b, fs'⟩ vars query md ns := by
  obtain ⟨i, hi, -, -⟩ := Allow.parseQuery_ok query
  refine ⟨?_, ?_, rfl⟩
  · cases b
    · simp [Allow.Set, Allow.isErr]
    · by_cases hq : query = ""
      · simp [Allow.Set, Allow.isErr, hq]
      · simp [Allow.Set, Allow.isErr, hq, hi]
  · intro item hb hq hp
    subst hb
    simp [Allow.Set, hq, hp]

/-- Witness for C1 on a writable store and a concrete mutation text. -/
theorem Allow.C1_witness :
    Allow.Set ⟨true, Allow.fsEmpty⟩ ("{}") ("mutation Bar {x}")
        Allow.zeroMetadata ("ns1") =
      Except.ok { Allow.zeroItem with
                    Query := ("mutation Bar {x}")
                    Namespace := ("ns1")
                    Vars := ("{}") } :=
  (Allow.C1_set_contract true Allow.fsEmpty Allow.fsEmpty ("{}")
      ("mutation Bar {x}") Allow.zeroMetadata ("ns1")).2.1
    { Allow.zeroItem with Query := ("mutation Bar {x}") }
    rfl (by decide) (by decide)

/-- C2: the background writer persists a record only when the external
canonicalizing parse succeeds and the fast parse yields a non-empty
operation name: a parse failure or an anonymous operation makes `save`
return an error with the filesystem untouched (so the record never appears
in a later `Load`), while `Set` had accepted the document; on success the
persisted record carries the canonical `Name` and its lowercased `key`. -/
theorem Allow.C2_writer_persists_only_named (ext : Allow.Ext)
    (fs : Allow.FSys) (item : Allow.Item) (q : String) (h : Allow.FPH)
    (e : Allow.GoErr) (b : Bool) (vars qq ns : String) (md : Allow.Metadata) :
    (ext.qdParse item.Query = .error e →
        Allow.save ext fs item = (fs, some e)) ∧
      (ext.qdParse item.Query = .ok q → ext.fastParse q = .error e →
        Allow.save ext fs item = (fs, some e)) ∧
      (ext.qdParse item.Query = .ok q → ext.fastParse q = .ok h →
        h.Name = "" →
        (Allow.save ext fs item).1 = fs ∧
          ((Allow.save ext fs item).2).isSome = true ∧
          Allow.Load ext (Allow.save ext fs item).1 = Allow.Load ext fs) ∧
      (ext.qdParse item.Query = .ok q → ext.fastParse q = .ok h →
        h.Name ≠ "" →
        Allow.save ext fs item =
            Allow.saveItem ext fs (Allow.canonItem h item) true ∧
          (Allow.canonItem h item).Name = h.Name ∧
          (Allow.canonItem h item).key = Allow.toLowerGo h.Name) ∧
      (b = true → qq ≠ "" →
        Allow.isErr (Allow.Set ⟨b, fs⟩ vars qq md ns) = false) := by
  refine ⟨?_, ?_, ?_, ?_, ?_⟩
  · intro h1
    simp [Allow.save, h1]
  · intro h1 h2
    simp [Allow.save, h1, h2]
  · intro h1 h2 h3
    simp [Allow.save, h1, h2, h3]
  · intro h1 h2 h3
    refine ⟨?_, rfl, rfl⟩
    simp [Allow.save, h1, h2, h3]
  · intro hb hq
    subst hb
    obtain ⟨i, hi, -, -⟩ := Allow.parseQuery_ok qq
    simp [Allow.Set, Allow.isErr, hq, hi]

/-- Witness for C2: with the identity canonicalizer and a fast parser that
reports an anonymous operation, `save` leaves the filesystem unchanged and
errors, a later `Load` is unaffected, and `Set` had accepted the text. -/
theorem Allow.C2_witness :
    ((Allow.save Allow.extAnon Allow.fsEmpty
          { Allow.zeroItem with Query := ("query {x}") }).1 = Allow.fsEmpty ∧
        ((Allow.save Allow.extAnon Allow.fsEmpty
            { Allow.zeroItem with Query := ("query {x}") }).2).isSome = true ∧
        Allow.Load Allow.extAnon
            (Allow.save Allow.extAnon Allow.fsEmpty
              { Allow.zeroItem with Query := ("query {x}") }).1 =
          Allow.Load Allow.extAnon Allow.fsEmpty) ∧
      Allow.isErr (Allow.Set ⟨true, Allow.fsEmpty⟩ ("") ("query {x}")
          Allow.zeroMetadata ("")) = false :=
  ⟨(Allow.C2_writer_persists_only_named Allow.extAnon Allow.fsEmpty
        { Allow.zeroItem with Query := ("query {x}") } ("query {x}") ⟨("")⟩
        Allow.GoErr.unknownFileType true ("") ("query {x}") ("")
        Allow.zeroMetadata).2.2.1 rfl rfl rfl,
    (Allow.C2_writer_persists_only_named Allow.extAnon Allow.fsEmpty
        { Allow.zeroItem with Query := ("query {x}") } ("query {x}") ⟨("")⟩
        Allow.GoErr.unknownFileType true ("") ("query {x}") ("")
        Allow.zeroMetadata).2.2.2.2 rfl (by decide)⟩

/-- C3: `GetByName` probes the four accepted extensions in the fixed order
`.gql`, `.graphql`, `.yml`, `.yaml` against the composed path under
`/queries`, dispatches `Get` on the first candidate that exists, and when
none of the four exists returns the zero-valued record with a nil error. -/
theorem Allow.C3_getByName_probe_order (ext : Allow.Ext) (fs : Allow.FSys)
    (name : String) :
    (Allow.fsExists fs (Allow.goJoin Allow.queryPath name ++ (".gql")) = true →
        Allow.GetByName ext fs name =
          Allow.Get ext fs (Allow.goJoin Allow.queryPath name ++ (".gql"))) ∧
      (Allow.fsExists fs (Allow.goJoin Allow.queryPath name ++ (".gql")) = false →
        Allow.fsExists fs (Allow.goJoin Allow.queryPath name ++ (".graphql")) = true →
        Allow.GetByName ext fs name =
          Allow.Get ext fs (Allow.goJoin Allow.queryPath name ++ (".graphql"))) ∧
      (Allow.fsExists fs (Allow.goJoin Allow.queryPath name ++ (".gql")) = false →
        Allow.fsExists fs (Allow.goJoin Allow.queryPath name ++ (".graphql")) = false →
        Allow.fsExists fs (Allow.goJoin Allow.queryPath name ++ (".yml")) = true →
        Allow.GetByName ext fs name =
          Allow.Get ext fs (Allow.goJoin Allow.queryPath name ++ (".yml"))) ∧
      (Allow.fsExists fs (Allow.goJoin Allow.queryPath name ++ (".gql")) = false →
        Allow.fsExists fs (Allow.goJoin Allow.queryPath name ++ (".graphql")) = false →
        Allow.fsExists fs (Allow.goJoin Allow.queryPath name ++ (".yml")) = false →
        Allow.fsExists fs (Allow.goJoin Allow.queryPath name ++ (".yaml")) = true →
        Allow.GetByName ext fs name =
          Allow.Get ext fs (Allow.goJoin Allow.queryPath name ++ (".yaml"))) ∧
      (Allow.fsExists fs (Allow.goJoin Allow.queryPath name ++ (".gql")) = false →
        Allow.fsExists fs (Allow.goJoin Allow.queryPath name ++ (".graphql")) = false →
        Allow.fsExists fs (Allow.goJoin Allow.queryPath name ++ (".yml")) = false →
        Allow.fsExists fs (Allow.goJoin Allow.queryPath name ++ (".yaml")) = false →
        Allow.GetByName ext fs name = Except.ok Allow.zeroItem) := by
  refine ⟨?_, ?_, ?_, ?_, ?_⟩
  · intro h1
    simp [Allow.GetByName, h1]
  · intro h1 h2
    simp [Allow.GetByName, h1, h2]
  · intro h1 h2 h3
    simp [Allow.GetByName, h1, h2, h3]
  · intro h1 h2 h3 h4
    simp [Allow.GetByName, h1, h2, h3, h4]
  · intro h1 h2 h3 h4
    simp [Allow.GetByName, h1, h2, h3, h4]

/-- Witness for C3: with only
`/queries/billing.GetInvoice.yaml` present the fourth probe fires, and on
an empty filesystem the lookup miss yields the zero record with no
error. -/
theorem Allow.C3_witness :
    Allow.GetByName Allow.extGU Allow.fsYaml ("billing.GetInvoice") =
        Allow.Get Allow.extGU Allow.fsYaml (("/queries/billing.GetInvoice.yaml")) ∧
      Allow.GetByName Allow.extGU Allow.fsEmpty ("nope") =
        Except.ok Allow.zeroItem :=
  ⟨(Allow.C3_getByName_probe_order Allow.extGU Allow.fsYaml
        ("billing.GetInvoice")).2.2.2.1
      (by decide) (by decide) (by decide) (by decide),
    (Allow.C3_getByName_probe_order Allow.extGU Allow.fsEmpty ("nope")).2.2.2.2
      (by decide) (by decide) (by decide) (by decide)⟩

/-- C4: `Load` returns an empty result with a nil error when `/queries`
does not exist; otherwise it runs the per-entry loop over the directory
listing, in which a directory entry is skipped, an entry on which `Get`
fails with the unknown-file-type sentinel is silently skipped, any other
`Get` error aborts the whole load with that error and no items, and a
decoded entry is prepended to the remaining items. -/
theorem Allow.C4_load_contract (ext : Allow.Ext) (fs : Allow.FSys)
    (n : String) (rest : List (String × Bool)) (e : Allow.GoErr)
    (item : Allow.Item) :
    (fs.dirs.contains Allow.queryPath = false →
        Allow.Load ext fs = .ok []) ∧
      (fs.dirs.contains Allow.queryPath = true →
        Allow.Load ext fs =
          Allow.loadLoop ext fs (Allow.readDir fs Allow.queryPath)) ∧
      (Allow.loadLoop ext fs ((n, true) :: rest) =
        Allow.loadLoop ext fs rest) ∧
      (Allow.Get ext fs (Allow.goJoin Allow.queryPath n) =
          .error Allow.GoErr.unknownFileType →
        Allow.loadLoop ext fs ((n, false) :: rest) =
          Allow.loadLoop ext fs rest) ∧
      (Allow.Get ext fs (Allow.goJoin Allow.queryPath n) = .error e →
        e ≠ Allow.GoErr.unknownFileType →
        Allow.loadLoop ext fs ((n, false) :: rest) = .error e) ∧
      (Allow.Get ext fs (Allow.goJoin Allow.queryPath n) = .ok item →
        Allow.loadLoop ext fs ((n, false) :: rest) =
          Except.map (fun items => item :: items)
            (Allow.loadLoop ext fs rest)) := by
  refine ⟨?_, ?_, ?_, ?_, ?_, ?_⟩
  · intro h1
    simp at h1
    simp [Allow.Load, h1]
  · intro h1
    simp at h1
    simp [Allow.Load, h1]
  · simp [Allow.loadLoop]
  · intro h1
    simp [Allow.loadLoop, h1]
  · intro h1 h2
    simp [Allow.loadLoop, h1, h2]
  · intro h1
    simp only [Allow.loadLoop, h1, Bool.false_eq_true, if_false]
    cases Allow.loadLoop ext fs rest <;> rfl

/-- Witness for C4, exercising every clause on concrete filesystems: the
missing directory, a subdirectory entry, an unrecognized extension, an
aborting `Get` error, and a decoded `.gql` record. -/
theorem Allow.C4_witness :
    Allow.Load Allow.extGU Allow.fsEmpty = .ok [] ∧
      Allow.loadLoop Allow.extGU Allow.fsLoad [(("sub"), true)] =
        Allow.loadLoop Allow.extGU Allow.fsLoad [] ∧
      Allow.loadLoop Allow.extGU Allow.fsLoad [(("readme.txt"), false)] =
        Allow.loadLoop Allow.extGU Allow.fsLoad [] ∧
      Allow.loadLoop Allow.extGU Allow.fsLoad [((".gql"), false)] =
        .error (.msg (("invalid filename: /queries/.gql"))) ∧
      Allow.loadLoop Allow.extGU Allow.fsLoad [(("a.gql"), false)] =
        Except.map
          (fun items =>
            { Allow.zeroItem with
                Name := ("a")
                Query := ("query {x}")
                key := ("a") } :: items)
          (Allow.loadLoop Allow.extGU Allow.fsLoad []) :=
  ⟨(Allow.C4_load_contract Allow.extGU Allow.fsEmpty ("") []
        Allow.GoErr.unknownFileType Allow.zeroItem).1 (by decide),
    (Allow.C4_load_contract Allow.extGU Allow.fsLoad ("sub") []
        Allow.GoErr.unknownFileType Allow.zeroItem).2.2.1,
    (Allow.C4_load_contract Allow.extGU Allow.fsLoad ("readme.txt") []
        Allow.GoErr.unknownFileType Allow.zeroItem).2.2.2.1 (by decide),
    (Allow.C4_load_contract Allow.extGU Allow.fsLoad (".gql") []
        (.msg (("invalid filename: /queries/.gql"))) Allow.zeroItem).2.2.2.2.1
      (by decide) (by decide),
    (Allow.C4_load_contract Allow.extGU Allow.fsLoad ("a.gql") []
        Allow.GoErr.unknownFileType
        { Allow.zeroItem with
            Name := ("a")
            Query := ("query {x}")
            key := ("a") }).2.2.2.2.2 (by decide)⟩

/-- C5 counterexample: decoding a structured `.yaml` record with a
non-empty `Name` yields a record whose `key` is the empty string — the
codec cannot populate the unexported field — so `key` differs from the
lowercased `Name`. -/
theorem Allow.C5_counterexample :
    Allow.itemFromYaml Allow.extGU Allow.fsYaml
        (("/queries/billing.GetInvoice.yaml")) =
      Except.ok { Allow.zeroItem with
                    Name := ("GetUser")
                    Query := ("q") } ∧
      ({ Allow.zeroItem with Name := ("GetUser"), Query := ("q") } : Allow.Item).key ≠
        Allow.toLowerGo ("GetUser") := by
  decide

/-- C5 amended: the `key = lowercase(Name)` invariant holds for the
records produced by the Segmenter (`parseQuery`) and by the writer's
canonicalization step (`canonItem`), while the structured-decode path
(`itemFromYaml`) always leaves `key` at its zero value `""` — there the
invariant holds only when `Name` is itself empty. -/
theorem Allow.C5_key_lowercase (b : String) (item0 : Allow.Item)
    (ext : Allow.Ext) (fs : Allow.FSys) (p : String) (h : Allow.FPH) :
    (∀ item, Allow.parseQuery b = .ok item →
        item.key = Allow.toLowerGo item.Name) ∧
      (∀ item, Allow.itemFromYaml ext fs p = .ok item → item.key = "") ∧
      (Allow.canonItem h item0).key =
        Allow.toLowerGo ((Allow.canonItem h item0).Name) := by
  refine ⟨?_, ?_, rfl⟩
  · intro item hitem
    obtain ⟨i, hi, hn, hk⟩ := Allow.parseQuery_ok b
    rw [hitem] at hi
    cases hi
    rw [hk, hn]
    decide
  · intro item hitem
    simp only [Allow.itemFromYaml] at hitem
    split at hitem
    · exact Except.noConfusion hitem
    · split at hitem
      · exact Except.noConfusion hitem
      · cases hitem
        rfl

/-- Witness for C5 at concrete inputs: a segmented record and a decoded
YAML record. -/
theorem Allow.C5_witness :
    Allow.zeroItem.key = Allow.toLowerGo Allow.zeroItem.Name ∧
      ({ Allow.zeroItem with Name := ("GetUser"), Query := ("q") } : Allow.Item).key = "" :=
  ⟨(Allow.C5_key_lowercase ("x") Allow.zeroItem Allow.extGU Allow.fsYaml
        (("/queries/billing.GetInvoice.yaml")) ⟨("")⟩).1
      Allow.zeroItem (by decide),
    (Allow.C5_key_lowercase ("x") Allow.zeroItem Allow.extGU Allow.fsYaml
        (("/queries/billing.GetInvoice.yaml")) ⟨("")⟩).2.1
      { Allow.zeroItem with Name := ("GetUser"), Query := ("q") }
      (by decide)⟩

namespace Allow

/-! ## Lemmas about the persist step -/

theorem writeFile_failPaths (fs : FSys) (p c : String) :
    ((writeFile fs p c).1).failPaths = fs.failPaths := by
  unfold writeFile
  split_ifs <;> rfl

theorem writeFile_ok (fs : FSys) (p c : String)
    (h : fs.failPaths.contains p = false) :
    writeFile fs p c = ({ fs with files := upsert fs.files p c }, none) := by
  simp at h
  simp [writeFile, h]

theorem writeFile_fail (fs : FSys) (p c : String)
    (h : fs.failPaths.contains p = true) :
    writeFile fs p c = (fs, some (.msg (("write failed: ") ++ p))) := by
  simp at h
  simp [writeFile, h]

theorem upsert_self (l : List (String × String)) (p c : String) :
    ((upsert l p c).find? (fun e => e.1 = p)).map (fun e => e.2) = some c := by
  induction l with
  | nil => simp [upsert, List.find?]
  | cons hd tl ih =>
    by_cases h : hd.1 = p
    · simp [upsert, h, List.find?]
    · simp only [upsert]
      rw [if_neg (by simpa using h)]
      simp only [List.find?]
      rw [show (decide (hd.1 = p)) = false by simpa using h]
      exact ih

theorem upsert_other (l : List (String × String)) (p c p' : String)
    (h : p' ≠ p) :
    ((upsert l p c).find? (fun e => e.1 = p')).map (fun e => e.2) =
      (l.find? (fun e => e.1 = p')).map (fun e => e.2) := by
  induction l with
  | nil => simp [upsert, List.find?, h, Ne.symm h]
  | cons hd tl ih =>
    by_cases hq : hd.1 = p
    · simp only [upsert]
      rw [if_pos (by simpa using hq)]
      simp only [List.find?]
      rw [show (decide (p = p')) = false by simp [Ne.symm h]]
      rw [show (decide (hd.1 = p')) = false by simp [hq, Ne.symm h]]
    · simp only [upsert]
      rw [if_neg (by simpa using hq)]
      simp only [List.find?]
      by_cases hp' : hd.1 = p'
      · rw [show (decide (hd.1 = p')) = true by simpa using hp']
      · rw [show (decide (hd.1 = p')) = false by simpa using hp']
        exact ih

theorem fragLoop_partial (ns : String) (bad : Frag) (post : List Frag) :
    ∀ (pre : List Frag) (fs : FSys),
      (∀ f ∈ pre,
        fs.failPaths.contains (goJoin fragmentPath (fragFn ns f.Name)) = false) →
      fs.failPaths.contains (goJoin fragmentPath (fragFn ns bad.Name)) = true →
      fragLoop ns fs (pre ++ bad :: post) =
        ((fragLoop ns fs pre).1,
          some (.msg (("write failed: ") ++
            goJoin fragmentPath (fragFn ns bad.Name))))
  | [], fs, _, hbad => by
    simp only [List.nil_append, fragLoop]
    rw [writeFile_fail _ _ _ hbad]
  | f :: pre', fs, hpre, hbad => by
    have hf : fs.failPaths.contains (goJoin fragmentPath (fragFn ns f.Name)) = false :=
      hpre f (by simp)
    simp only [List.cons_append, fragLoop]
    rw [writeFile_ok _ _ _ hf]
    exact fragLoop_partial ns bad post pre' _
      (fun g hg => hpre g (List.mem_cons_of_mem f hg))
      hbad

theorem fragLoop_find (ns p : String) :
    ∀ (l : List Frag) (fs : FSys),
      (∀ f ∈ l, p ≠ goJoin fragmentPath (fragFn ns f.Name)) →
      fsFind ((fragLoop ns fs l).1) p = fsFind fs p
  | [], fs, _ => rfl
  | f :: rest, fs, hl => by
    by_cases hc :
      fs.failPaths.contains (goJoin fragmentPath (fragFn ns f.Name)) = true
    · simp only [fragLoop]
      rw [writeFile_fail _ _ _ hc]
    · have hc' :
        fs.failPaths.contains (goJoin fragmentPath (fragFn ns f.Name)) = false := by
        simpa using hc
      simp only [fragLoop]
      rw [writeFile_ok _ _ _ hc']
      rw [fragLoop_find ns p rest _ (fun g hg => hl g (List.mem_cons_of_mem f hg))]
      simp only [fsFind]
      exact upsert_other fs.files _ _ p (hl f (by simp))

end Allow

/-- C9: in the persist step each fragment is written after the main
record; when writing fragment `bad` (preceded by `pre`, followed by
`post`) fails, `saveItem` returns that write error, the resulting
filesystem is exactly the main-record write followed by the writes of
`pre` — the fragments after the failing one are never written and nothing
is rolled back — and the main record file is still readable. -/
theorem Allow.C9_fragment_failure_no_rollback (ext : Allow.Ext)
    (fs : Allow.FSys) (item : Allow.Item) (enc : String)
    (pre post : List Allow.Frag) (bad : Allow.Frag)
    (hv : item.Vars = "")
    (henc : ext.yamlEnc item = .ok enc)
    (hfr : item.frags = pre ++ bad :: post)
    (hmain : fs.failPaths.contains
      (Allow.goJoin Allow.queryPath (Allow.mainFn item)) = false)
    (hpre : ∀ f ∈ pre, fs.failPaths.contains
      (Allow.goJoin Allow.fragmentPath (Allow.fragFn item.Namespace f.Name)) = false)
    (hbad : fs.failPaths.contains
      (Allow.goJoin Allow.fragmentPath (Allow.fragFn item.Namespace bad.Name)) = true)
    (hdist : ∀ f ∈ pre,
      Allow.goJoin Allow.queryPath (Allow.mainFn item) ≠
        Allow.goJoin Allow.fragmentPath (Allow.fragFn item.Namespace f.Name)) :
    Allow.saveItem ext fs item true =
        ((Allow.fragLoop item.Namespace (Allow.mainWritten fs item enc) pre).1,
          some (.msg (("write failed: ") ++
            Allow.goJoin Allow.fragmentPath
              (Allow.fragFn item.Namespace bad.Name)))) ∧
      Allow.fsFind ((Allow.saveItem ext fs item true).1)
          (Allow.goJoin Allow.queryPath (Allow.mainFn item)) = some enc := by
  have hw := Allow.writeFile_ok fs
    (Allow.goJoin Allow.queryPath (Allow.mainFn item)) enc hmain
  have hstep : Allow.saveItem ext fs item true =
      Allow.fragLoop item.Namespace (Allow.mainWritten fs item enc) item.frags := by
    simp only [Allow.saveItem, hv]
    rw [if_neg (by simp)]
    dsimp only
    rw [henc]
    dsimp only
    rw [hw]
    rfl
  have hloop := Allow.fragLoop_partial item.Namespace bad post pre
    (Allow.mainWritten fs item enc)
    (fun g hg => hpre g hg)
    hbad
  constructor
  · rw [hstep, hfr]
    exact hloop
  · rw [hstep, hfr, hloop]
    rw [Allow.fragLoop_find item.Namespace _ pre _ (fun g hg => hdist g hg)]
    simp only [Allow.mainWritten, Allow.fsFind]
    exact Allow.upsert_self fs.files _ enc

/-- Witness for C9: persisting a record with fragments `A`, `B`, `C` on a
filesystem where writing `/fragments/B` fails stops after `A`, keeps the
main record on disk, and reports the failure of `B`. -/
theorem Allow.C9_witness :
    Allow.saveItem Allow.extAnon Allow.fsFailB Allow.itemFr true =
        ((Allow.fragLoop ("")
            (Allow.mainWritten Allow.fsFailB Allow.itemFr (""))
            [⟨("A"), ("va")⟩]).1,
          some (.msg (("write failed: /fragments/B")))) ∧
      Allow.fsFind ((Allow.saveItem Allow.extAnon Allow.fsFailB Allow.itemFr true).1)
          (("/queries/Q.yaml")) = some ("") :=
  Allow.C9_fragment_failure_no_rollback Allow.extAnon Allow.fsFailB Allow.itemFr
    ("") [⟨("A"), ("va")⟩] [⟨("C"), ("vc")⟩] ⟨("B"), ("vb")⟩
    rfl rfl rfl (by decide) (by decide) (by decide) (by decide)
